import Mathlib

/-!
Verification development for the Email_module repository.

Part 1 models `backend/services/classification_service.py`
(`EmailClassifier`): a small regular-expression language covering exactly
the constructs used by the classifier's pattern table (`\s+`, `\d+`, a
trailing `?` on one literal character, and literal characters), the
pattern table, the priority order, `classify` and
`get_classification_confidence`.

Part 2 models the threading engine, whose source file
(`backend/services/threading_engine.py`) is not present under `src/`;
those definitions are modelled from the spec and are marked as such.
-/

namespace EmailModule

/-- Tokens of the restricted regular-expression language used by the
classifier's pattern table: a literal character, `\s+` (one or more
whitespace characters), `\d+` (one or more digit characters), and `c?`
(an optional literal character). -/
inductive RTok where
  | lit (c : Char)
  | ws
  | digits
  | opt (c : Char)
deriving DecidableEq

/-- Suffixes reachable by consuming one or more characters satisfying
`p` from the front of the text (the `+` quantifier). -/
def plusSuffixes (p : Char → Bool) : List Char → List (List Char)
  | [] => []
  | x :: xs => if p x then xs :: plusSuffixes p xs else []

/-- Suffixes reachable by consuming one token from the front of the
text. -/
def stepTok (t : RTok) (l : List Char) : List (List Char) :=
  match t with
  | .lit c => match l with
    | x :: xs => if x == c then [xs] else []
    | [] => []
  | .ws => plusSuffixes Char.isWhitespace l
  | .digits => plusSuffixes Char.isDigit l
  | .opt c => (match l with
    | x :: xs => if x == c then [xs] else []
    | [] => []) ++ [l]

/-- The token sequence matches a prefix of one of the candidate
suffixes (all-states NFA evaluation, equivalent to the backtracking of
`re` on this fragment). -/
def matchesFrom : List RTok → List (List Char) → Bool
  | [], ls => !ls.isEmpty
  | t :: ps, ls => matchesFrom ps (ls.flatMap (stepTok t))

/-- Truth of `matchesAt ps l`: holds when the token sequence `ps` matches some
prefix of `l`. -/
def matchesAt (ps : List RTok) (l : List Char) : Bool :=
  matchesFrom ps [l]

/-- Model of `re.search`: the pattern matches at some position of the text. -/
def reSearch (ps : List RTok) (l : List Char) : Bool :=
  l.tails.any (fun t => matchesAt ps t)

/-- Compile the notation used to transcribe the Python patterns: a space
stands for `\s+`, `#` stands for `\d+`, `c?` for an optional character,
anything else is a literal. -/
def compilePat : List Char → List RTok
  | [] => []
  | c :: '?' :: rest => .opt c :: compilePat rest
  | ' ' :: rest => .ws :: compilePat rest
  | '#' :: rest => .digits :: compilePat rest
  | c :: rest => .lit c :: compilePat rest

/-- Transcription helper for one pattern of the table. -/
def pat (s : String) : List RTok := compilePat s.toList

/-- The `EmailType` enum from `classification_service.py`. -/
inductive EmailType where
  | NIL_FILING
  | VAT_FILING
  | GST_FILING
  | ITR_SUBMISSION
  | DOC_REQUEST
  | COMPLIANCE_NOTICE
  | RTI_SUBMISSION
  | GENERAL
deriving DecidableEq

/-- Result of `EmailClassifier.get_classification_confidence`; the Python
float confidence is modelled as a rational number, and the dict key
`matches` (a Lean keyword) as the field `matchCount`. -/
structure ClassificationResult where
  type : EmailType
  confidence : ℚ
  matchCount : Nat
deriving DecidableEq

namespace EmailClassifier

/-- The table `EmailClassifier.PATTERNS`, transcribed pattern by pattern from the
source (`nil\s+filing` is written `pat ("nil filing")`, `vat-\d+` is
written `pat ("vat-#")`, `documents?` is written `documents?`, etc.).
`GENERAL` has no entry in the Python dict; `cls.PATTERNS.get(t, [])`
yields `[]` for it. -/
def PATTERNS : EmailType → List (List RTok)
  | .NIL_FILING =>
      [pat ("nil filing"), pat ("nil return"), pat ("no income"),
       pat ("nil profit"), pat ("zero return")]
  | .VAT_FILING =>
      [pat ("vat filing"), pat ("vat return"), pat ("vat submission"),
       pat ("value added tax"), pat ("vat-#")]
  | .GST_FILING =>
      [pat ("gst filing"), pat ("gst return"), pat ("gst submission"),
       pat ("goods and services tax"), pat ("gstr-#"), pat ("gstin")]
  | .ITR_SUBMISSION =>
      [pat ("itr submission"), pat ("income tax return"), pat ("itr filed"),
       pat ("itr status"), pat ("itr-#"), pat ("tax return"),
       pat ("assessment year")]
  | .DOC_REQUEST =>
      [pat ("please provide"), pat ("please submit"), pat ("document required"),
       pat ("documentation needed"), pat ("waiting for"), pat ("awaiting"),
       pat ("kindly send"), pat ("request for documents?"),
       pat ("pending documents?")]
  | .COMPLIANCE_NOTICE =>
      [pat ("compliance notice"), pat ("urgent notice"), pat ("important notice"),
       pat ("action required"), pat ("immediate attention"), pat ("penalty notice"),
       pat ("show cause"), pat ("scrutiny notice")]
  | .RTI_SUBMISSION =>
      [pat ("rti file"), pat ("rti submission"), pat ("return of tax information"),
       pat ("rti generated"), pat ("rti attached")]
  | .GENERAL => []

/-- Insertion (iteration) order of the keys of the Python `PATTERNS` dict. -/
def PATTERNS_KEYS : List EmailType :=
  [.NIL_FILING, .VAT_FILING, .GST_FILING, .ITR_SUBMISSION,
   .DOC_REQUEST, .COMPLIANCE_NOTICE, .RTI_SUBMISSION]

/-- The list `EmailClassifier.PRIORITY_ORDER` (earlier = higher priority). -/
def PRIORITY_ORDER : List EmailType :=
  [.COMPLIANCE_NOTICE, .RTI_SUBMISSION, .NIL_FILING, .VAT_FILING,
   .GST_FILING, .ITR_SUBMISSION, .DOC_REQUEST]

/-- The text `f"{subject} {body or ''}".lower()` as a character list. -/
def emailText (subject : String) (body : Option String) : List Char :=
  ((subject ++ (" ") ++ body.getD ("")).toList).map Char.toLower

/-- Some pattern of `email_type` matches the text (the inner loop of
`classify`). -/
def typeMatches (email_type : EmailType) (text : List Char) : Bool :=
  (PATTERNS email_type).any (fun p => reSearch p text)

/-- Model of `EmailClassifier.classify`: first category of `PRIORITY_ORDER` with a
matching pattern; `GENERAL` when none matches. -/
def classify (subject : String) (body : Option String) : EmailType :=
  let text := emailText subject body
  match PRIORITY_ORDER.find? (fun t => typeMatches t text) with
  | some t => t
  | none => .GENERAL

/-- Number of patterns of `email_type` matching the text (the
`match_count` loop of `get_classification_confidence`). -/
def countOf (email_type : EmailType) (text : List Char) : Nat :=
  ((PATTERNS email_type).filter (fun p => reSearch p text)).length

/-- Python's `max(matches, key=matches.get)` over an association list in
iteration order: first entry attaining the maximal count (a later entry
replaces the current best only when strictly greater). -/
def maxEntry : List (EmailType × Nat) → Option (EmailType × Nat)
  | [] => none
  | x :: xs => some (xs.foldl (fun best y => if best.2 < y.2 then y else best) x)

/-- The `matches` dict of `get_classification_confidence`: per-category
match counts in the table's iteration order, keeping only categories with
at least one match. -/
def matchTable (text : List Char) : List (EmailType × Nat) :=
  (PATTERNS_KEYS.map (fun t => (t, countOf t text))).filter (fun pr => 0 < pr.2)

/-- Model of `EmailClassifier.get_classification_confidence`. -/
def get_classification_confidence (subject : String) (body : Option String) :
    ClassificationResult :=
  match maxEntry (matchTable (emailText subject body)) with
  | none => ⟨.GENERAL, 1/2, 0⟩
  | some best => ⟨best.1, min (19/20) (3/5 + (best.2 : ℚ) * (1/10)), best.2⟩

/-- The fold inside `maxEntry`, named for reasoning: scan a list with a
current best, replacing it only on a strictly greater count. -/
def pickMax (x : EmailType × Nat) (xs : List (EmailType × Nat)) : EmailType × Nat :=
  xs.foldl (fun best y => if best.2 < y.2 then y else best) x

/-- Position of a category in the iteration order of the source `PATTERNS`
table (`GENERAL`, absent from the table, sorts last). -/
def tableIdx : EmailType → Nat
  | .NIL_FILING => 0
  | .VAT_FILING => 1
  | .GST_FILING => 2
  | .ITR_SUBMISSION => 3
  | .DOC_REQUEST => 4
  | .COMPLIANCE_NOTICE => 5
  | .RTI_SUBMISSION => 6
  | .GENERAL => 7

end EmailClassifier

/-!
Part 2: the Multi-Layer Thread Resolution Engine.

The repository's test suite (`backend/tests/test_threading.py`) imports
`services.threading_engine`, but that source file is not present under
`src/`; every definition below is therefore modelled from the spec
(sections 4.1-4.4, 6 and 8), cross-checked against the expectations of
the test suite.
-/

/-- Modelled from the spec: the JSON-like shape of the provider email
payload (`EmailPayload`, spec section 6) — a structural record whose
fields and substructures may be absent or malformed. -/
inductive JVal where
  | null
  | str (s : String)
  | arr (elems : List JVal)
  | obj (fields : List (String × JVal))

/-- Field lookup in a payload object; `none` when the value is not an
object or the key is absent. -/
def jGet : JVal → String → Option JVal
  | .obj fields, k => (fields.find? (fun f => f.1 == k)).map (fun f => f.2)
  | _, _ => none

/-- The value when it is a string, `none` otherwise. -/
def jStr : JVal → Option String
  | .str s => some s
  | _ => none

/-- Modelled from the spec: the injected read-only lookup collaborator of
the Thread Resolution Engine (spec section 6). A thread is represented by
its id. -/
structure EmailRef where
  id : String
  thread_id : String
deriving DecidableEq

/-- Modelled from the spec: the lookup collaborator interface (spec
section 6). -/
structure Lookup where
  findThreadByConversationId : String → Option String
  findEmailByCanonicalMessageId : String → Option EmailRef
  findRecentThreadBySubjectAndParticipants : String → List String → Option String

/-- Record `ThreadMatch` (spec section 3): the transient result of one matching
layer. -/
structure ThreadMatch where
  thread_id : String
  confidence : ℚ
  method : String
  parent_id : Option String
deriving DecidableEq

/-- Record `ThreadingResult` (spec section 3): the engine's output. -/
structure ThreadingResult where
  thread_id : String
  confidence : ℚ
  method : String
  is_new : Bool
  parent_id : Option String
deriving DecidableEq

namespace EmailThreadingEngine

/-- The `re:` marker, lowercased. -/
def reMark : List Char := [ 'r', 'e', ':' ]

/-- The `fwd:` marker, lowercased. -/
def fwdMark : List Char := [ 'f', 'w', 'd', ':' ]

/-- The `fw:` marker, lowercased. -/
def fwMark : List Char := [ 'f', 'w', ':' ]

/-- Modelled from the spec: the marker-stripping loop of the Subject
Normalizer (spec section 4.1) on lowercased text — repeatedly drop
leading whitespace and a leading `re:` / `fwd:` / `fw:` marker or
bracketed tag (`[...]` with a closing bracket) until none is found at the
head. -/
def stripMarkers (l : List Char) : List Char :=
  if (l.dropWhile Char.isWhitespace).take 3 = reMark then
    stripMarkers ((l.dropWhile Char.isWhitespace).drop 3)
  else if (l.dropWhile Char.isWhitespace).take 4 = fwdMark then
    stripMarkers ((l.dropWhile Char.isWhitespace).drop 4)
  else if (l.dropWhile Char.isWhitespace).take 3 = fwMark then
    stripMarkers ((l.dropWhile Char.isWhitespace).drop 3)
  else if (l.dropWhile Char.isWhitespace).head? = some '['
      ∧ ']' ∈ (l.dropWhile Char.isWhitespace).tail then
    stripMarkers
      (((l.dropWhile Char.isWhitespace).tail.dropWhile
          (fun c => !(c == ']'))).drop 1)
  else l.dropWhile Char.isWhitespace
termination_by l.length
decreasing_by
  · rename_i h
    have ht := (List.dropWhile_suffix (l := l) Char.isWhitespace).sublist.length_le
    have h3 := congrArg List.length h
    simp [reMark] at h3
    simp [List.length_drop]
    omega
  · rename_i h
    have ht := (List.dropWhile_suffix (l := l) Char.isWhitespace).sublist.length_le
    have h4 := congrArg List.length h
    simp [fwdMark] at h4
    simp [List.length_drop]
    omega
  · rename_i h
    have ht := (List.dropWhile_suffix (l := l) Char.isWhitespace).sublist.length_le
    have h3 := congrArg List.length h
    simp [fwMark] at h3
    simp [List.length_drop]
    omega
  · rename_i h
    have ht := (List.dropWhile_suffix (l := l) Char.isWhitespace).sublist.length_le
    have hne : l.dropWhile Char.isWhitespace ≠ [] := by
      intro hnil
      rw [hnil] at h
      simp at h
    have hlen : 0 < (l.dropWhile Char.isWhitespace).length :=
      List.length_pos.mpr hne
    have htl : (l.dropWhile Char.isWhitespace).tail.length
        = (l.dropWhile Char.isWhitespace).length - 1 := by
      simp [List.length_tail]
    have hdw := (List.dropWhile_suffix
      (l := (l.dropWhile Char.isWhitespace).tail)
      (fun c => !(c == ']'))).sublist.length_le
    simp [List.length_drop]
    omega

/-- Collapse runs of whitespace to a single `' '` and drop trailing
whitespace (part of the Subject Normalizer, spec section 4.1). -/
def collapseWs : List Char → List Char
  | [] => []
  | c :: rest =>
    if c.isWhitespace then
      match collapseWs (rest.dropWhile Char.isWhitespace) with
      | [] => []
      | r => ' ' :: r
    else c :: collapseWs rest
termination_by l => l.length
decreasing_by
  all_goals simp_wf
  all_goals first
  | omega
  | (have h1 := (List.dropWhile_suffix (l := xs) Char.isWhitespace).sublist.length_le
     omega)

/-- Trim leading whitespace, then collapse internal whitespace runs (the
whitespace normalization of the Subject Normalizer). -/
def squish (l : List Char) : List Char :=
  collapseWs (l.dropWhile Char.isWhitespace)

/-- The stripping loop's stopping condition: no leading whitespace and no
reply/forward marker or completed bracket tag at the head. -/
def cleanHead (t : List Char) : Prop :=
  t.dropWhile Char.isWhitespace = t
  ∧ t.take 3 ≠ reMark ∧ t.take 4 ≠ fwdMark ∧ t.take 3 ≠ fwMark
  ∧ ¬(t.head? = some '[' ∧ ']' ∈ t.tail)

/-- Fully collapsed whitespace: every whitespace character is a single
`' '` followed by a non-whitespace character (so no runs and no trailing
whitespace). -/
def normalizedWs : List Char → Prop
  | [] => True
  | [c] => c.isWhitespace = false
  | c :: d :: rest =>
    (c.isWhitespace = false ∨ (c = ' ' ∧ d.isWhitespace = false))
    ∧ normalizedWs (d :: rest)

/-- Modelled from the spec: `EmailThreadingEngine._normalize_subject`
(spec section 4.1) — `""` for an absent subject; otherwise lowercase,
repeatedly strip leading reply/forward markers and bracketed tags,
collapse whitespace runs to single spaces and trim. Lowercasing first
makes the marker matching case-insensitive. -/
def _normalize_subject (s : Option String) : String :=
  match s with
  | none => ("")
  | some t => String.mk (squish (stripMarkers (t.toList.map Char.toLower)))

/-- Modelled from the spec: `EmailThreadingEngine._clean_message_id`
(spec section 4.2) — strip one pair of surrounding angle brackets when
present; `""` for an absent id. -/
def _clean_message_id (s : Option String) : String :=
  match s with
  | none => ("")
  | some t =>
    match t.toList with
    | '<' :: rest =>
      if rest.getLast? = some '>' then String.mk rest.dropLast else t
    | _ => t

/-- Modelled from the spec: `EmailThreadingEngine._extract_from_address`
(spec section 4.3) — the lowercase, trimmed sender address, or `""` when
the `from.emailAddress.address` chain is absent or not a string. -/
def _extract_from_address (p : JVal) : String :=
  match ((jGet p ("from")).bind (fun j => jGet j ("emailAddress"))).bind
      (fun j => (jGet j ("address")).bind jStr) with
  | some s => s.trim.toLower
  | none => ("")

/-- Modelled from the spec: `EmailThreadingEngine._extract_recipients`
(spec section 4.3) — the lowercase, trimmed addresses of the named
recipient list, `[]` when the field is absent or not a list; entries
whose `emailAddress.address` chain is absent or not a string are
skipped. -/
def _extract_recipients (p : JVal) (field : String) : List String :=
  match jGet p field with
  | some (.arr xs) =>
    xs.filterMap (fun x =>
      ((jGet x ("emailAddress")).bind
          (fun j => (jGet j ("address")).bind jStr)).map
        (fun s => s.trim.toLower))
  | _ => []

/-- The payload's provider conversation id, when present as a string. -/
def convId (p : JVal) : Option String :=
  (jGet p ("conversationId")).bind jStr

/-- Value of the first internet message header with the given name, when
present as a string. -/
def headerValue (p : JVal) (name : String) : Option String :=
  match jGet p ("internetMessageHeaders") with
  | some (.arr hs) =>
    (hs.find? (fun h => (jGet h ("name")).bind jStr == some name)).bind
      (fun h => (jGet h ("value")).bind jStr)
  | _ => none

/-- Modelled from the spec: the canonicalized reply target of the
reference-chain layer (spec section 4.4 layer 2) — the cleaned
In-Reply-To header, falling back to the cleaned last entry of the
whitespace-separated References header when In-Reply-To is absent. -/
def replyTarget (p : JVal) : Option String :=
  match headerValue p ("In-Reply-To") with
  | some v => some (_clean_message_id (some v))
  | none =>
    match headerValue p ("References") with
    | some r =>
      (((r.splitOn (" ")).filter (fun s => !(s == ""))).getLast?).map
        (fun s => _clean_message_id (some s))
    | none => none

/-- The participant set of the heuristic layer: sender plus `to` and `cc`
recipients (spec section 4.4 layer 3). -/
def participants (p : JVal) : List String :=
  _extract_from_address p ::
    _extract_recipients p ("toRecipients") ++ _extract_recipients p ("ccRecipients")

/-- Modelled from the spec: the threading engine's injected state — the
read-only lookup collaborator, the (tunable, spec section 4.4 layer 3)
confidence produced by the subject/participant heuristic, and the opaque
token used to synthesize a fresh thread identifier. -/
structure Engine where
  lookup : Lookup
  heuristicConfidence : ℚ
  freshToken : String

/-- Modelled from the spec:
`EmailThreadingEngine._check_conversation_id` (layer 1, spec section 4.4)
— confidence 1.0, method `conversation_id`, when the payload carries a
conversation id and the lookup finds a thread with that id. -/
def _check_conversation_id (lk : Lookup) (p : JVal) : Option ThreadMatch :=
  match convId p with
  | none => none
  | some cid =>
    match lk.findThreadByConversationId cid with
    | none => none
    | some tid => some ⟨tid, 1, ("conversation_id"), none⟩

/-- Modelled from the spec: `EmailThreadingEngine._check_in_reply_to`
(the reference-chain layer, spec section 4.4 layer 2) — confidence 0.99,
method `rfc_in_reply_to`, inheriting the matched prior email's thread id
and recording that email's id as `parent_id`. -/
def _check_in_reply_to (lk : Lookup) (p : JVal) : Option ThreadMatch :=
  match replyTarget p with
  | none => none
  | some mid =>
    match lk.findEmailByCanonicalMessageId mid with
    | none => none
    | some em => some ⟨em.thread_id, 99/100, ("rfc_in_reply_to"), some em.id⟩

/-- Modelled from the spec: the subject/participant heuristic layer (spec
section 4.4 layer 3) — method `subject_participant_heuristic`, with the
engine's tunable confidence from the 0.5-0.85 band. -/
def _check_subject_participants (e : Engine) (p : JVal) : Option ThreadMatch :=
  match e.lookup.findRecentThreadBySubjectAndParticipants
      (_normalize_subject ((jGet p ("subject")).bind jStr)) (participants p) with
  | none => none
  | some tid => some ⟨tid, e.heuristicConfidence, ("subject_participant_heuristic"), none⟩

/-- A layer match packaged as the engine's result (`is_new = false`). -/
def toResult (m : ThreadMatch) : ThreadingResult :=
  ⟨m.thread_id, m.confidence, m.method, false, m.parent_id⟩

/-- Modelled from the spec: `EmailThreadingEngine.thread_email` (spec
section 4.4) — the ordered try-chain over the matching layers, first
success wins; when no layer matches, a fresh `thread_`-prefixed thread id
is synthesized with confidence 0.0, method `new_thread`, `is_new =
true`. -/
def thread_email (e : Engine) (p : JVal) : ThreadingResult :=
  match _check_conversation_id e.lookup p with
  | some m => toResult m
  | none =>
    match _check_in_reply_to e.lookup p with
    | some m => toResult m
    | none =>
      match _check_subject_participants e p with
      | some m => toResult m
      | none => ⟨("thread_") ++ e.freshToken, 0, ("new_thread"), true, none⟩

/-- A lookup collaborator that never finds anything (the mocked database
of `test_creates_new_thread_when_no_match`). -/
def noneLookup : Lookup :=
  ⟨fun _ => none, fun _ => none, fun _ _ => none⟩

/-- An engine over `noneLookup`, with heuristic confidence 0.5. -/
def newThreadEngine : Engine := ⟨noneLookup, 1/2, ("t1")⟩

/-- A lookup knowing the thread `thread-123` with conversation id
`conv-abc123` and the prior email `email-789` (thread `thread-456`) with
canonical message id `parent@example.com` (the values of the repository's
threading tests). -/
def testLookup : Lookup :=
  ⟨fun c => if c == ("conv-abc123") then some ("thread-123") else none,
   fun m => if m == ("parent@example.com") then
       some ⟨("email-789"), ("thread-456")⟩
     else none,
   fun _ _ => none⟩

/-- An engine over `testLookup`. -/
def testEngine : Engine := ⟨testLookup, 1/2, ("t1")⟩

/-- A payload carrying only a conversation id (from
`test_matches_existing_conversation`). -/
def convPayload : JVal :=
  JVal.obj [(("conversationId"), JVal.str ("conv-abc123"))]

/-- A payload carrying only an In-Reply-To header (from
`test_matches_in_reply_to_header`). -/
def replyPayload : JVal :=
  JVal.obj [(("internetMessageHeaders"),
    JVal.arr [JVal.obj [(("name"), JVal.str ("In-Reply-To")),
                        (("value"), JVal.str ("<parent@example.com>"))]])]

/-- A payload carrying both a known conversation id and a matching
In-Reply-To header. -/
def bothPayload : JVal :=
  JVal.obj [(("conversationId"), JVal.str ("conv-abc123")),
    (("internetMessageHeaders"),
      JVal.arr [JVal.obj [(("name"), JVal.str ("In-Reply-To")),
                          (("value"), JVal.str ("<parent@example.com>"))]])]

end EmailThreadingEngine

namespace EmailClassifier

/-- A category found by `classify`'s priority scan is a key of the
priority list, hence never `GENERAL`. -/
theorem find_priority_ne_general {text : List Char} {t : EmailType}
    (h : PRIORITY_ORDER.find? (fun u => typeMatches u text) = some t) :
    t ≠ .GENERAL := by
  have hmem := List.mem_of_find?_eq_some h
  intro he
  rw [he] at hmem
  simp [PRIORITY_ORDER] at hmem

/-- Fact: `classify` returns `GENERAL` exactly when the priority scan finds
nothing. -/
theorem classify_eq_general_iff_none (subject : String) (body : Option String) :
    classify subject body = .GENERAL ↔
      PRIORITY_ORDER.find? (fun u => typeMatches u (emailText subject body)) = none := by
  unfold classify
  cases h : PRIORITY_ORDER.find? (fun u => typeMatches u (emailText subject body)) with
  | none => simp only [h]
  | some t =>
    simp only [h]
    constructor
    · intro he
      exact absurd he (find_priority_ne_general h)
    · intro hn
      exact absurd hn (by simp)

/-- C1: whenever the lowercased subject+body text matches at least one
COMPLIANCE_NOTICE pattern (and in particular when it additionally matches
a GST_FILING pattern), `classify` returns COMPLIANCE_NOTICE, because
COMPLIANCE_NOTICE heads the priority order. -/
theorem classify_compliance_preempts_gst (subject : String) (body : Option String)
    (hc : typeMatches .COMPLIANCE_NOTICE (emailText subject body) = true)
    (_hg : typeMatches .GST_FILING (emailText subject body) = true) :
    classify subject body = .COMPLIANCE_NOTICE := by
  unfold classify
  simp [PRIORITY_ORDER, List.find?, hc]

/-- Witness for C1: the spec's own example, where both an
`urgent\s+notice` pattern and a `gst\s+filing` pattern match. -/
theorem classify_compliance_preempts_gst_witness :
    classify ("URGENT NOTICE: GST Filing Required") none = .COMPLIANCE_NOTICE :=
  classify_compliance_preempts_gst ("URGENT NOTICE: GST Filing Required") none
    (by decide) (by decide)

/-- C3: `classify` (a total Lean function) returns GENERAL iff no
category of the priority order has a matching pattern, and otherwise
returns the first category of the priority order with a matching
pattern, spelled out category by category. -/
theorem classify_general_iff_no_match (subject : String) (body : Option String) :
    (classify subject body = .GENERAL ↔
      ∀ t ∈ PRIORITY_ORDER, typeMatches t (emailText subject body) = false)
  ∧ (typeMatches .COMPLIANCE_NOTICE (emailText subject body) = true →
      classify subject body = .COMPLIANCE_NOTICE)
  ∧ (typeMatches .COMPLIANCE_NOTICE (emailText subject body) = false →
     typeMatches .RTI_SUBMISSION (emailText subject body) = true →
      classify subject body = .RTI_SUBMISSION)
  ∧ (typeMatches .COMPLIANCE_NOTICE (emailText subject body) = false →
     typeMatches .RTI_SUBMISSION (emailText subject body) = false →
     typeMatches .NIL_FILING (emailText subject body) = true →
      classify subject body = .NIL_FILING)
  ∧ (typeMatches .COMPLIANCE_NOTICE (emailText subject body) = false →
     typeMatches .RTI_SUBMISSION (emailText subject body) = false →
     typeMatches .NIL_FILING (emailText subject body) = false →
     typeMatches .VAT_FILING (emailText subject body) = true →
      classify subject body = .VAT_FILING)
  ∧ (typeMatches .COMPLIANCE_NOTICE (emailText subject body) = false →
     typeMatches .RTI_SUBMISSION (emailText subject body) = false →
     typeMatches .NIL_FILING (emailText subject body) = false →
     typeMatches .VAT_FILING (emailText subject body) = false →
     typeMatches .GST_FILING (emailText subject body) = true →
      classify subject body = .GST_FILING)
  ∧ (typeMatches .COMPLIANCE_NOTICE (emailText subject body) = false →
     typeMatches .RTI_SUBMISSION (emailText subject body) = false →
     typeMatches .NIL_FILING (emailText subject body) = false →
     typeMatches .VAT_FILING (emailText subject body) = false →
     typeMatches .GST_FILING (emailText subject body) = false →
     typeMatches .ITR_SUBMISSION (emailText subject body) = true →
      classify subject body = .ITR_SUBMISSION)
  ∧ (typeMatches .COMPLIANCE_NOTICE (emailText subject body) = false →
     typeMatches .RTI_SUBMISSION (emailText subject body) = false →
     typeMatches .NIL_FILING (emailText subject body) = false →
     typeMatches .VAT_FILING (emailText subject body) = false →
     typeMatches .GST_FILING (emailText subject body) = false →
     typeMatches .ITR_SUBMISSION (emailText subject body) = false →
     typeMatches .DOC_REQUEST (emailText subject body) = true →
      classify subject body = .DOC_REQUEST) := by
  refine ⟨?_, ?_, ?_, ?_, ?_, ?_, ?_, ?_⟩
  · rw [classify_eq_general_iff_none, List.find?_eq_none]
    simp
  all_goals
    intros
    unfold classify
    simp only [PRIORITY_ORDER, List.find?]
    simp_all

/-- Witness for C3: on `"Hello, how are you?"` no pattern matches and
`classify` returns GENERAL; on `"NIL Filing Confirmation for March 2026"`
the first matching category in priority order is NIL_FILING. -/
theorem classify_general_iff_no_match_witness :
    classify ("Hello, how are you?") none = .GENERAL
  ∧ classify ("NIL Filing Confirmation for March 2026") none = .NIL_FILING := by
  constructor
  · exact (classify_general_iff_no_match ("Hello, how are you?") none).1.mpr (by decide)
  · exact (classify_general_iff_no_match
      ("NIL Filing Confirmation for March 2026") none).2.2.2.1
      (by decide) (by decide) (by decide)

/-- C4: a concrete input (one COMPLIANCE_NOTICE pattern and two
GST_FILING patterns match) on which `classify` and
`get_classification_confidence` return different categories: the
confidence entry point picks the highest match count, not the priority
order. -/
theorem classify_vs_confidence_disagree :
    ∃ subject body, classify subject body ≠ (get_classification_confidence subject body).type
  ∧ classify subject body = .COMPLIANCE_NOTICE
  ∧ (get_classification_confidence subject body).type = .GST_FILING := by
  refine ⟨("urgent notice gst filing gstr-1"), none, ?_, ?_, ?_⟩ <;> decide

/-- Unfolding `maxEntry` on a non-empty list: the fold with the head as initial
best. -/
theorem maxEntry_cons (x : EmailType × Nat) (xs : List (EmailType × Nat)) :
    maxEntry (x :: xs) = some (pickMax x xs) := rfl

/-- The fold's result is the initial best or a list element. -/
theorem pickMax_mem (xs : List (EmailType × Nat)) :
    ∀ x, pickMax x xs = x ∨ pickMax x xs ∈ xs := by
  induction xs with
  | nil => intro x; left; rfl
  | cons y ys ih =>
    intro x
    have hstep : pickMax x (y :: ys) = pickMax (if x.2 < y.2 then y else x) ys := rfl
    rw [hstep]
    rcases ih (if x.2 < y.2 then y else x) with h | h
    · rw [h]
      by_cases hxy : x.2 < y.2
      · right; simp [hxy]
      · left; simp [hxy]
    · right; exact List.mem_cons_of_mem y h

/-- Every scanned entry's count is at most the fold result's count. -/
theorem pickMax_le (xs : List (EmailType × Nat)) :
    ∀ x, ∀ y ∈ x :: xs, y.2 ≤ (pickMax x xs).2 := by
  induction xs with
  | nil =>
    intro x y hy
    rcases List.mem_singleton.mp hy with rfl
    exact le_refl _
  | cons z zs ih =>
    intro x y hy
    have hstep : pickMax x (z :: zs) = pickMax (if x.2 < z.2 then z else x) zs := rfl
    rw [hstep]
    have hhead : (if x.2 < z.2 then z else x).2
        ≤ (pickMax (if x.2 < z.2 then z else x) zs).2 :=
      ih _ _ (List.mem_cons_self _ _)
    have hx : x.2 ≤ (if x.2 < z.2 then z else x).2 := by
      by_cases hxz : x.2 < z.2
      · simp only [if_pos hxz]; omega
      · simp only [if_neg hxz]; omega
    have hz : z.2 ≤ (if x.2 < z.2 then z else x).2 := by
      by_cases hxz : x.2 < z.2
      · simp only [if_pos hxz]; omega
      · simp only [if_neg hxz]; omega
    rcases List.mem_cons.mp hy with rfl | hy'
    · exact le_trans hx hhead
    · rcases List.mem_cons.mp hy' with rfl | hy''
      · exact le_trans hz hhead
      · exact ih _ _ (List.mem_cons_of_mem _ hy'')

/-- The fold returns the first entry attaining the maximum: it is the
initial best, or a list element strictly greater than the initial best
and than every element before it. -/
theorem pickMax_first (xs : List (EmailType × Nat)) :
    ∀ x, pickMax x xs = x ∨
      ∃ l1 y l2, xs = l1 ++ y :: l2 ∧ pickMax x xs = y ∧ x.2 < y.2
        ∧ ∀ z ∈ l1, z.2 < y.2 := by
  induction xs with
  | nil => intro x; left; rfl
  | cons z zs ih =>
    intro x
    have hstep : pickMax x (z :: zs) = pickMax (if x.2 < z.2 then z else x) zs := rfl
    by_cases hxz : x.2 < z.2
    · rw [hstep, if_pos hxz]
      rcases ih z with h | ⟨l1, y, l2, hsp, hpk, hlt, hall⟩
      · right
        exact ⟨[], z, zs, rfl, h, hxz, by simp⟩
      · right
        refine ⟨z :: l1, y, l2, by rw [hsp]; rfl, hpk, lt_trans hxz hlt, ?_⟩
        intro w hw
        rcases List.mem_cons.mp hw with rfl | hw'
        · exact hlt
        · exact hall w hw'
    · rw [hstep, if_neg hxz]
      rcases ih x with h | ⟨l1, y, l2, hsp, hpk, hlt, hall⟩
      · left; exact h
      · right
        refine ⟨z :: l1, y, l2, by rw [hsp]; rfl, hpk, hlt, ?_⟩
        intro w hw
        rcases List.mem_cons.mp hw with rfl | hw'
        · omega
        · exact hall w hw'

/-- Members of the match table are table keys with their positive match
counts. -/
theorem matchTable_mem (text : List Char) (m : EmailType × Nat)
    (h : m ∈ matchTable text) :
    m.1 ∈ PATTERNS_KEYS ∧ m.2 = countOf m.1 text ∧ 0 < m.2 := by
  unfold matchTable at h
  obtain ⟨hm, hp⟩ := List.mem_filter.mp h
  obtain ⟨t, ht, rfl⟩ := List.mem_map.mp hm
  refine ⟨ht, rfl, ?_⟩
  simpa using hp

/-- A table key with a positive match count appears in the match table. -/
theorem matchTable_mem_of_pos (text : List Char) (t : EmailType)
    (ht : t ∈ PATTERNS_KEYS) (hc : 0 < countOf t text) :
    (t, countOf t text) ∈ matchTable text := by
  unfold matchTable
  exact List.mem_filter.mpr ⟨List.mem_map_of_mem _ ht, by simpa using hc⟩

/-- The match table is strictly sorted by the table's iteration order. -/
theorem matchTable_pairwise (text : List Char) :
    (matchTable text).Pairwise (fun a b => tableIdx a.1 < tableIdx b.1) := by
  unfold matchTable
  refine List.Pairwise.sublist (List.filter_sublist _) ?_
  rw [List.pairwise_map]
  have hp : PATTERNS_KEYS.Pairwise (fun a b => tableIdx a < tableIdx b) := by
    simp [PATTERNS_KEYS, tableIdx]
  exact hp

/-- Case analysis for the confidence scorer: either no category matches,
or `maxEntry` yields the first maximal entry of the match table. -/
theorem matchTable_cases (text : List Char) :
    (matchTable text = [] ∧ ∀ t ∈ PATTERNS_KEYS, countOf t text = 0)
  ∨ (∃ b, maxEntry (matchTable text) = some b
     ∧ b.1 ∈ PATTERNS_KEYS ∧ 0 < b.2 ∧ countOf b.1 text = b.2
     ∧ (∀ t ∈ PATTERNS_KEYS, countOf t text ≤ b.2)
     ∧ (∀ t ∈ PATTERNS_KEYS, tableIdx t < tableIdx b.1 → countOf t text < b.2)) := by
  have hpw := matchTable_pairwise text
  cases hf : matchTable text with
  | nil =>
    left
    refine ⟨rfl, fun t ht => ?_⟩
    by_contra hne
    have hmem := matchTable_mem_of_pos text t ht (Nat.pos_of_ne_zero hne)
    rw [hf] at hmem
    exact absurd hmem (List.not_mem_nil _)
  | cons h tl =>
    right
    rw [hf] at hpw
    have hmemb : pickMax h tl ∈ h :: tl := by
      rcases pickMax_mem tl h with he | hm
      · rw [he]; exact List.mem_cons_self _ _
      · exact List.mem_cons_of_mem _ hm
    obtain ⟨hbK, hbeq, hbpos⟩ :=
      matchTable_mem text (pickMax h tl) (by rw [hf]; exact hmemb)
    refine ⟨pickMax h tl, maxEntry_cons h tl, hbK, hbpos, hbeq.symm, ?_, ?_⟩
    · intro t ht
      rcases Nat.eq_zero_or_pos (countOf t text) with hz | hp
      · rw [hz]; exact Nat.zero_le _
      · have hmem := matchTable_mem_of_pos text t ht hp
        rw [hf] at hmem
        exact pickMax_le tl h _ hmem
    · intro t ht hidx
      rcases Nat.eq_zero_or_pos (countOf t text) with hz | hp
      · rw [hz]; exact hbpos
      · have hmem := matchTable_mem_of_pos text t ht hp
        rw [hf] at hmem
        rcases pickMax_first tl h with he | ⟨l1, y, l2, hsp, hpk, hlt, hall⟩
        · rcases List.mem_cons.mp hmem with hh | htl
          · exfalso
            have h1 : h.1 = t := by rw [← hh]
            rw [he, h1] at hidx
            omega
          · exfalso
            have hR := (List.pairwise_cons.mp hpw).1 _ htl
            simp only at hR
            rw [he] at hidx
            omega
        · rw [hpk]
          rw [hpk] at hidx
          rcases List.mem_cons.mp hmem with hh | htl
          · have h2 : countOf t text = h.2 := by rw [← hh]
            rw [h2]
            exact hlt
          · rw [hsp] at htl
            rcases List.mem_append.mp htl with hl1 | hyl2
            · have := hall _ hl1
              simpa using this
            · rcases List.mem_cons.mp hyl2 with hy | hl2
              · exfalso
                have h1 : y.1 = t := by rw [← hy]
                rw [h1] at hidx
                omega
              · exfalso
                rw [hsp] at hpw
                have hpw2 := (List.pairwise_cons.mp hpw).2
                have hpwy := (List.pairwise_append.mp hpw2).2.1
                have hR := (List.pairwise_cons.mp hpwy).1 _ hl2
                simp only at hR
                omega

/-- The two outcomes of `get_classification_confidence`: the GENERAL
default, or the result built from the first maximal entry. -/
theorem gcc_cases (subject : String) (body : Option String) :
    ((∀ t ∈ PATTERNS_KEYS, countOf t (emailText subject body) = 0) ∧
      get_classification_confidence subject body = ⟨.GENERAL, 1/2, 0⟩)
  ∨ (∃ b : EmailType × Nat,
      b.1 ∈ PATTERNS_KEYS ∧ 0 < b.2 ∧ countOf b.1 (emailText subject body) = b.2
    ∧ (∀ t ∈ PATTERNS_KEYS, countOf t (emailText subject body) ≤ b.2)
    ∧ (∀ t ∈ PATTERNS_KEYS, tableIdx t < tableIdx b.1 →
        countOf t (emailText subject body) < b.2)
    ∧ get_classification_confidence subject body
        = ⟨b.1, min (19/20) (3/5 + (b.2 : ℚ) * (1/10)), b.2⟩) := by
  rcases matchTable_cases (emailText subject body) with
    ⟨hnil, hall⟩ | ⟨b, hmax, hK, hpos, hcnt, hle, hfirst⟩
  · left
    refine ⟨hall, ?_⟩
    unfold get_classification_confidence
    rw [hnil]
    rfl
  · right
    refine ⟨b, hK, hpos, hcnt, hle, hfirst, ?_⟩
    unfold get_classification_confidence
    rw [hmax]

/-- C2: for every subject and optional body, if no pattern of any
category matches then `get_classification_confidence` returns the GENERAL
result with confidence 1/2 and zero matches; otherwise the winning
category attains the maximal per-category match count (strictly beating
every earlier table entry, the deterministic tie-break), the reported
match count is that maximum, and the confidence is
`min(0.95, 0.6 + 0.1 * matches)`. -/
theorem confidence_spec (subject : String) (body : Option String) :
    ((∀ t ∈ PATTERNS_KEYS, countOf t (emailText subject body) = 0) →
       get_classification_confidence subject body = ⟨.GENERAL, 1/2, 0⟩)
  ∧ (∀ t0 ∈ PATTERNS_KEYS, 0 < countOf t0 (emailText subject body) →
       (get_classification_confidence subject body).type ∈ PATTERNS_KEYS
     ∧ countOf (get_classification_confidence subject body).type (emailText subject body)
         = (get_classification_confidence subject body).matchCount
     ∧ (∀ t ∈ PATTERNS_KEYS, countOf t (emailText subject body)
         ≤ (get_classification_confidence subject body).matchCount)
     ∧ (∀ t ∈ PATTERNS_KEYS,
          tableIdx t < tableIdx (get_classification_confidence subject body).type →
          countOf t (emailText subject body)
            < (get_classification_confidence subject body).matchCount)
     ∧ (get_classification_confidence subject body).confidence
         = min (19/20)
             (3/5 + ((get_classification_confidence subject body).matchCount : ℚ) * (1/10))) := by
  rcases gcc_cases subject body with
    ⟨hall, heq⟩ | ⟨b, hK, hpos, hcnt, hle, hfirst, heq⟩
  · refine ⟨fun _ => heq, fun t0 ht0 hpos0 => absurd (hall t0 ht0) ?_⟩
    omega
  · constructor
    · intro hall
      exact absurd (hall b.1 hK) (by omega)
    · intro t0 ht0 hpos0
      rw [heq]
      exact ⟨hK, hcnt, hle, hfirst, rfl⟩

/-- Witness for C2: the spec's example "Meeting tomorrow", on which no
category has any match, yields the GENERAL result. -/
theorem confidence_spec_witness :
    get_classification_confidence ("Meeting tomorrow") none = ⟨.GENERAL, 1/2, 0⟩ :=
  (confidence_spec ("Meeting tomorrow") none).1 (by decide)

/-- C10: a confidence result has type GENERAL iff its match count is 0
iff its confidence is 1/2, and a non-GENERAL result has confidence at
least 0.7. -/
theorem confidence_general_iff (subject : String) (body : Option String) :
    ((get_classification_confidence subject body).type = .GENERAL
       ↔ (get_classification_confidence subject body).matchCount = 0)
  ∧ ((get_classification_confidence subject body).matchCount = 0
       ↔ (get_classification_confidence subject body).confidence = 1/2)
  ∧ ((get_classification_confidence subject body).type ≠ .GENERAL →
       7/10 ≤ (get_classification_confidence subject body).confidence) := by
  rcases gcc_cases subject body with
    ⟨hall, heq⟩ | ⟨b, hK, hpos, hcnt, hle, hfirst, heq⟩
  · rw [heq]
    refine ⟨by simp, by simp, fun hne => absurd rfl hne⟩
  · rw [heq]
    have hne : b.1 ≠ EmailType.GENERAL := by
      intro hg
      rw [hg] at hK
      simp [PATTERNS_KEYS] at hK
    have hcast : (1 : ℚ) ≤ (b.2 : ℚ) := by
      exact_mod_cast hpos
    have hconf : (7/10 : ℚ) ≤ min (19/20) (3/5 + (b.2 : ℚ) * (1/10)) := by
      refine le_min (by norm_num) ?_
      nlinarith
    refine ⟨?_, ?_, fun _ => hconf⟩
    · constructor
      · intro hg
        exact absurd hg hne
      · intro h0
        exfalso
        have hb0 : b.2 = 0 := h0
        omega
    · constructor
      · intro h0
        exfalso
        have hb0 : b.2 = 0 := h0
        omega
      · intro hc
        exfalso
        have hc2 : (19/20 : ℚ) ⊓ (3/5 + (b.2 : ℚ) * (1/10)) = 1/2 := hc
        rw [hc2] at hconf
        norm_num at hconf


/-- Witness for C10: the GENERAL example has confidence 1/2 and zero
matches; the GST example is non-GENERAL and scores at least 0.7. -/
theorem confidence_general_iff_witness :
    (get_classification_confidence ("Meeting tomorrow") none).matchCount = 0
  ∧ 7/10 ≤ (get_classification_confidence ("GST Return for GSTR-1") none).confidence := by
  constructor
  · exact (confidence_general_iff ("Meeting tomorrow") none).1.mp (by decide)
  · exact (confidence_general_iff ("GST Return for GSTR-1") none).2.2 (by decide)

end EmailClassifier

namespace EmailThreadingEngine

/-- Any match produced by the conversation-id layer has confidence 1,
method `conversation_id` and no parent. -/
theorem conv_match_shape (lk : Lookup) (p : JVal) (m : ThreadMatch)
    (h : _check_conversation_id lk p = some m) :
    m.confidence = 1 ∧ m.method = ("conversation_id") ∧ m.parent_id = none := by
  unfold _check_conversation_id at h
  cases hc : convId p with
  | none =>
    simp only [hc] at h
    exact Option.noConfusion h
  | some cid =>
    simp only [hc] at h
    cases hl : lk.findThreadByConversationId cid with
    | none =>
      simp only [hl] at h
      exact Option.noConfusion h
    | some tid =>
      simp only [hl] at h
      injection h with h
      subst h
      exact ⟨rfl, rfl, rfl⟩

/-- Any match produced by the reference-chain layer has confidence 99/100
and method `rfc_in_reply_to`, and carries the matched email's id as
parent. -/
theorem reply_match_shape (lk : Lookup) (p : JVal) (m : ThreadMatch)
    (h : _check_in_reply_to lk p = some m) :
    m.confidence = 99/100 ∧ m.method = ("rfc_in_reply_to")
  ∧ ∃ em, lk.findEmailByCanonicalMessageId (Option.getD (replyTarget p) (""))
      = some em ∧ m.thread_id = em.thread_id ∧ m.parent_id = some em.id := by
  unfold _check_in_reply_to at h
  cases hr : replyTarget p with
  | none =>
    simp only [hr] at h
    exact Option.noConfusion h
  | some mid =>
    simp only [hr] at h
    cases hl : lk.findEmailByCanonicalMessageId mid with
    | none =>
      simp only [hl] at h
      exact Option.noConfusion h
    | some em =>
      simp only [hl] at h
      injection h with h
      subst h
      exact ⟨rfl, rfl, em, hl, rfl, rfl⟩

/-- Any match produced by the heuristic layer carries the engine's
heuristic confidence and method `subject_participant_heuristic`. -/
theorem heur_match_shape (e : Engine) (p : JVal) (m : ThreadMatch)
    (h : _check_subject_participants e p = some m) :
    m.confidence = e.heuristicConfidence
  ∧ m.method = ("subject_participant_heuristic") := by
  unfold _check_subject_participants at h
  cases hl : e.lookup.findRecentThreadBySubjectAndParticipants
      (_normalize_subject ((jGet p ("subject")).bind jStr)) (participants p) with
  | none =>
    simp only [hl] at h
    exact Option.noConfusion h
  | some tid =>
    simp only [hl] at h
    injection h with h
    subst h
    exact ⟨rfl, rfl⟩

/-- A `thread_`-prefixed identifier is never empty. -/
theorem thread_prefixed_ne_empty (s : String) : ("thread_") ++ s ≠ ("") := by
  intro h
  have hlen := congrArg String.length h
  rw [String.length_append] at hlen
  have h7 : (("thread_") : String).length = 7 := rfl
  have h0 : (("") : String).length = 0 := rfl
  omega

/-- C5: for every engine (with heuristic confidence in the spec's
0.5-0.85 band, in particular nonzero) and payload, the `ThreadingResult`
of `thread_email` satisfies `is_new = true ⇔ confidence = 0 ⇔ method =
"new_thread"`; and when no layer matches, the returned thread id is the
freshly synthesized `thread_`-prefixed identifier, which is non-empty. -/
theorem threading_result_invariant (e : Engine) (p : JVal)
    (hband : (1:ℚ)/2 ≤ e.heuristicConfidence) :
    ((thread_email e p).is_new = true ↔ (thread_email e p).confidence = 0)
  ∧ ((thread_email e p).confidence = 0 ↔ (thread_email e p).method = ("new_thread"))
  ∧ (_check_conversation_id e.lookup p = none →
     _check_in_reply_to e.lookup p = none →
     _check_subject_participants e p = none →
       (thread_email e p).is_new = true
     ∧ (thread_email e p).confidence = 0
     ∧ (thread_email e p).method = ("new_thread")
     ∧ (thread_email e p).thread_id = ("thread_") ++ e.freshToken
     ∧ (thread_email e p).thread_id ≠ ("")) := by
  cases h1 : _check_conversation_id e.lookup p with
  | some m =>
    obtain ⟨hc, hm, -⟩ := conv_match_shape e.lookup p m h1
    refine ⟨?_, ?_, ?_⟩
    · simp [thread_email, h1, toResult, hc]
    · simp [thread_email, h1, toResult, hc, hm]
    · intro hno; exact absurd hno (by simp)
  | none =>
    cases h2 : _check_in_reply_to e.lookup p with
    | some m =>
      obtain ⟨hc, hm, -⟩ := reply_match_shape e.lookup p m h2
      refine ⟨?_, ?_, ?_⟩
      · simp [thread_email, h1, h2, toResult, hc]
      · simp [thread_email, h1, h2, toResult, hc, hm]
      · intro _ hno; exact absurd hno (by simp)
    | none =>
      cases h3 : _check_subject_participants e p with
      | some m =>
        obtain ⟨hc, hm⟩ := heur_match_shape e p m h3
        have hne : e.heuristicConfidence ≠ 0 := by
          intro h0; rw [h0] at hband; norm_num at hband
        refine ⟨?_, ?_, ?_⟩
        · simp [thread_email, h1, h2, h3, toResult, hc, hne]
        · simp [thread_email, h1, h2, h3, toResult, hc, hm, hne]
        · intro _ _ hno; exact absurd hno (by simp)
      | none =>
        refine ⟨?_, ?_, ?_⟩
        · simp [thread_email, h1, h2, h3]
        · simp [thread_email, h1, h2, h3]
        · intro _ _ _
          refine ⟨by simp [thread_email, h1, h2, h3],
            by simp [thread_email, h1, h2, h3],
            by simp [thread_email, h1, h2, h3],
            by simp [thread_email, h1, h2, h3], ?_⟩
          have := thread_prefixed_ne_empty e.freshToken
          simp [thread_email, h1, h2, h3]
          exact this

/-- Witness for C5: with a lookup that never matches, the engine reports
a fresh, non-empty `thread_`-prefixed thread with confidence 0 and method
`new_thread`. -/
theorem threading_result_invariant_witness :
    (thread_email newThreadEngine (JVal.obj [])).is_new = true
  ∧ (thread_email newThreadEngine (JVal.obj [])).confidence = 0
  ∧ (thread_email newThreadEngine (JVal.obj [])).method = ("new_thread")
  ∧ (thread_email newThreadEngine (JVal.obj [])).thread_id ≠ ("") := by
  obtain ⟨-, -, h3⟩ :=
    threading_result_invariant newThreadEngine (JVal.obj [])
      (by norm_num [newThreadEngine])
  obtain ⟨a, b, c, -, d⟩ := h3 rfl rfl rfl
  exact ⟨a, b, c, d⟩

/-- C6: when the payload carries a conversation id known to the lookup,
`thread_email` returns that thread with confidence exactly 1 and method
`conversation_id`; when the payload has no conversation id, or the lookup
does not know it, the conversation-id layer yields no match. -/
theorem conversation_id_layer_spec (e : Engine) (p : JVal) :
    (∀ cid tid, convId p = some cid →
       e.lookup.findThreadByConversationId cid = some tid →
       thread_email e p = ⟨tid, 1, ("conversation_id"), false, none⟩)
  ∧ (convId p = none → _check_conversation_id e.lookup p = none)
  ∧ (∀ cid, convId p = some cid →
       e.lookup.findThreadByConversationId cid = none →
       _check_conversation_id e.lookup p = none) := by
  refine ⟨?_, ?_, ?_⟩
  · intro cid tid hc hl
    have hcc : _check_conversation_id e.lookup p
        = some ⟨tid, 1, ("conversation_id"), none⟩ := by
      simp only [_check_conversation_id, hc, hl]
    simp [thread_email, hcc, toResult]
  · intro hc
    simp only [_check_conversation_id, hc]
  · intro cid hc hl
    simp only [_check_conversation_id, hc, hl]

/-- Witness for C6: the repository test's conversation id `conv-abc123`
resolves to thread `thread-123` with confidence 1. -/
theorem conversation_id_layer_spec_witness :
    thread_email testEngine convPayload
      = ⟨("thread-123"), 1, ("conversation_id"), false, none⟩ :=
  (conversation_id_layer_spec testEngine convPayload).1
    ("conv-abc123") ("thread-123") rfl rfl

/-- Counterexample to C7 as stated: a payload whose In-Reply-To header
matches a prior email through the lookup, yet `thread_email` returns the
conversation-id layer's result (confidence 1, method `conversation_id`),
because the conversation-id layer is tried first. -/
theorem in_reply_to_preempted_counterexample :
    _check_in_reply_to testEngine.lookup bothPayload
      = some ⟨("thread-456"), 99/100, ("rfc_in_reply_to"), some ("email-789")⟩
  ∧ (thread_email testEngine bothPayload).method ≠ ("rfc_in_reply_to")
  ∧ (thread_email testEngine bothPayload).confidence ≠ 99/100 := by
  have heq : thread_email testEngine bothPayload
      = ⟨("thread-123"), 1, ("conversation_id"), false, none⟩ := rfl
  refine ⟨rfl, ?_, ?_⟩
  · rw [heq]
    decide
  · rw [heq]
    norm_num

/-- C7 (amended): provided the conversation-id layer yields no match,
every payload whose canonicalized In-Reply-To header (with the
References fallback applied inside `replyTarget`) matches a prior email
found by the lookup is threaded into that email's thread with confidence
exactly 99/100, method `rfc_in_reply_to`, and `parent_id = some` of the
matched email's id. -/
theorem in_reply_to_layer_spec (e : Engine) (p : JVal) (mid : String)
    (em : EmailRef)
    (h1 : _check_conversation_id e.lookup p = none)
    (h2 : replyTarget p = some mid)
    (h3 : e.lookup.findEmailByCanonicalMessageId mid = some em) :
    thread_email e p
      = ⟨em.thread_id, 99/100, ("rfc_in_reply_to"), false, some em.id⟩ := by
  have hcr : _check_in_reply_to e.lookup p
      = some ⟨em.thread_id, 99/100, ("rfc_in_reply_to"), some em.id⟩ := by
    simp only [_check_in_reply_to, h2, h3]
  simp [thread_email, h1, hcr, toResult]

/-- Witness for C7 (amended): the repository test's In-Reply-To header
`<parent@example.com>` resolves to thread `thread-456` with parent
`email-789` and confidence 99/100. -/
theorem in_reply_to_layer_spec_witness :
    thread_email testEngine replyPayload
      = ⟨("thread-456"), 99/100, ("rfc_in_reply_to"), false, some ("email-789")⟩ :=
  in_reply_to_layer_spec testEngine replyPayload ("parent@example.com")
    ⟨("email-789"), ("thread-456")⟩ rfl rfl rfl

/-- C9: participant extraction is total by construction (both helpers
are plain Lean functions): the sender extraction returns either `""` or
the lowercase, trimmed address found under `from.emailAddress.address`,
it returns `""` whenever `from` is absent, and recipient extraction
returns `[]` whenever the named field is absent or is not a list. -/
theorem extraction_total_spec (p : JVal) (field : String) :
    (_extract_from_address p = ("") ∨
      ∃ s, ((jGet p ("from")).bind (fun j => jGet j ("emailAddress"))).bind
          (fun j => (jGet j ("address")).bind jStr) = some s ∧
        _extract_from_address p = s.trim.toLower)
  ∧ (jGet p ("from") = none → _extract_from_address p = (""))
  ∧ (jGet p field = none → _extract_recipients p field = [])
  ∧ (∀ v, jGet p field = some v → (∀ xs, v ≠ JVal.arr xs) →
      _extract_recipients p field = []) := by
  refine ⟨?_, ?_, ?_, ?_⟩
  · unfold _extract_from_address
    cases h : ((jGet p ("from")).bind (fun j => jGet j ("emailAddress"))).bind
        (fun j => (jGet j ("address")).bind jStr) with
    | none => left; rfl
    | some s => right; exact ⟨s, rfl, rfl⟩
  · intro hf
    unfold _extract_from_address
    rw [hf]
    rfl
  · intro hf
    unfold _extract_recipients
    rw [hf]
  · intro v hv hna
    unfold _extract_recipients
    rw [hv]
    cases v with
    | arr xs => exact absurd rfl (hna xs)
    | null => rfl
    | str s => rfl
    | obj fields => rfl

/-- Witness for C9: on the repository test's payloads, the sender
address is lowercased, and an empty payload yields `""` and `[]`. -/
theorem extraction_total_spec_witness :
    _extract_from_address (JVal.obj []) = ("")
  ∧ _extract_recipients (JVal.obj []) ("toRecipients") = [] := by
  refine ⟨?_, ?_⟩
  · exact (extraction_total_spec (JVal.obj []) ("toRecipients")).2.1 rfl
  · exact (extraction_total_spec (JVal.obj []) ("toRecipients")).2.2.1 rfl

/-- Conversion `Char.ofNat` inverts `toNat` on valid code points. -/
theorem char_toNat_ofNat (n : Nat) (h : n.isValidChar) :
    (Char.ofNat n).toNat = n := by
  unfold Char.ofNat
  rw [dif_pos h]
  show (Char.ofNatAux n h).toNat = n
  unfold Char.ofNatAux Char.toNat UInt32.toNat
  exact BitVec.toNat_ofNatLt _ _

/-- Lowercasing `Char.toLower` is idempotent: a lowered character is outside the
uppercase ASCII range. -/
theorem charLower_idem (c : Char) : c.toLower.toLower = c.toLower := by
  have hdef : ∀ d : Char, d.toLower
      = if d.toNat ≥ 65 ∧ d.toNat ≤ 90 then Char.ofNat (d.toNat + 32) else d :=
    fun d => rfl
  by_cases h : c.toNat ≥ 65 ∧ c.toNat ≤ 90
  · rw [hdef c, if_pos h]
    have hv : (c.toNat + 32).isValidChar := Or.inl (by omega)
    have ht : (Char.ofNat (c.toNat + 32)).toNat = c.toNat + 32 :=
      char_toNat_ofNat _ hv
    rw [hdef, ht, if_neg (by omega)]
  · rw [hdef c, if_neg h, hdef c, if_neg h]

/-- A map fixing every member fixes the list. -/
theorem map_eq_self_of_forall (f : Char → Char) :
    ∀ l : List Char, (∀ c ∈ l, f c = c) → l.map f = l := by
  intro l h
  induction l with
  | nil => rfl
  | cons c cs ih =>
    rw [List.map_cons, h c (List.mem_cons_self _ _),
      ih (fun d hd => h d (List.mem_cons_of_mem _ hd))]

/-- A list fixed by a map has every member fixed. -/
theorem forall_of_map_eq_self (f : Char → Char) :
    ∀ l : List Char, l.map f = l → ∀ c ∈ l, f c = c := by
  intro l
  induction l with
  | nil => intro _ c hc; exact absurd hc (List.not_mem_nil _)
  | cons d ds ih =>
    intro h c hc
    rw [List.map_cons] at h
    injection h with h1 h2
    rcases List.mem_cons.mp hc with rfl | hc'
    · exact h1
    · exact ih h2 c hc'

/-- Dropping a prefix twice drops it once: `dropWhile` is idempotent. -/
theorem dropWhile_idem (p : Char → Bool) (l : List Char) :
    (l.dropWhile p).dropWhile p = l.dropWhile p := by
  induction l with
  | nil => rfl
  | cons c cs ih =>
    by_cases h : p c
    · simp [List.dropWhile_cons, h, ih]
    · simp [List.dropWhile_cons, h]

/-- Unfolding `collapseWs` at a non-whitespace head. -/
theorem collapseWs_cons_not_ws (c : Char) (rest : List Char)
    (h : c.isWhitespace = false) :
    collapseWs (c :: rest) = c :: collapseWs rest := by
  rw [collapseWs]
  simp [h]

/-- Unfolding `collapseWs` at a whitespace head whose collapsed tail is
empty. -/
theorem collapseWs_cons_ws_nil (x : Char) (xs : List Char)
    (hws : x.isWhitespace = true)
    (hnil : collapseWs (xs.dropWhile Char.isWhitespace) = []) :
    collapseWs (x :: xs) = [] := by
  rw [collapseWs, if_pos hws, hnil]

/-- Unfolding `collapseWs` at a whitespace head whose collapsed tail is
non-empty. -/
theorem collapseWs_cons_ws_cons (x : Char) (xs : List Char) (a : Char)
    (as : List Char) (hws : x.isWhitespace = true)
    (hcons : collapseWs (xs.dropWhile Char.isWhitespace) = a :: as) :
    collapseWs (x :: xs) = ' ' :: a :: as := by
  rw [collapseWs, if_pos hws, hcons]

/-- Every character of the collapsed list is a space or came from the
input. -/
theorem collapseWs_chars : ∀ l : List Char, ∀ c ∈ collapseWs l, c = ' ' ∨ c ∈ l := by
  intro l
  induction l using collapseWs.induct with
  | case1 => intro c hc; simp [collapseWs] at hc
  | case2 x xs hws hnil ih =>
    intro d hd
    rw [collapseWs_cons_ws_nil x xs hws hnil] at hd
    exact absurd hd (List.not_mem_nil _)
  | case3 x xs hws hne ih =>
    intro d hd
    rcases hr : collapseWs (xs.dropWhile Char.isWhitespace) with _ | ⟨a, as⟩
    · exact absurd hr hne
    · rw [collapseWs_cons_ws_cons x xs a as hws hr] at hd
      rcases List.mem_cons.mp hd with rfl | hd'
      · left; rfl
      · rw [← hr] at hd'
        rcases ih d hd' with hsp | hmem
        · left; exact hsp
        · right
          exact List.mem_cons_of_mem _
            ((List.dropWhile_suffix Char.isWhitespace).sublist.subset hmem)
  | case4 x xs hnws ih =>
    intro d hd
    rw [collapseWs_cons_not_ws x xs (by simpa using hnws)] at hd
    rcases List.mem_cons.mp hd with rfl | hd'
    · right; exact List.mem_cons_self _ _
    · rcases ih d hd' with hsp | hmem
      · left; exact hsp
      · right; exact List.mem_cons_of_mem _ hmem

/-- The stripping loop only removes characters from the front. -/
theorem stripMarkers_sublist : ∀ l : List Char, (stripMarkers l).Sublist l := by
  intro l
  induction l using stripMarkers.induct with
  | case1 x h ih =>
    rw [stripMarkers, if_pos h]
    exact ih.trans ((List.drop_sublist _ _).trans
      (List.dropWhile_suffix _).sublist)
  | case2 x h1 h2 ih =>
    rw [stripMarkers, if_neg h1, if_pos h2]
    exact ih.trans ((List.drop_sublist _ _).trans
      (List.dropWhile_suffix _).sublist)
  | case3 x h1 h2 h3 ih =>
    rw [stripMarkers, if_neg h1, if_neg h2, if_pos h3]
    exact ih.trans ((List.drop_sublist _ _).trans
      (List.dropWhile_suffix _).sublist)
  | case4 x h1 h2 h3 h4 ih =>
    rw [stripMarkers, if_neg h1, if_neg h2, if_neg h3, if_pos h4]
    refine ih.trans ?_
    refine (List.drop_sublist _ _).trans ?_
    refine (List.dropWhile_suffix _).sublist.trans ?_
    exact (List.tail_sublist _).trans (List.dropWhile_suffix _).sublist
  | case5 x h1 h2 h3 h4 =>
    rw [stripMarkers, if_neg h1, if_neg h2, if_neg h3, if_neg h4]
    exact (List.dropWhile_suffix _).sublist

/-- The stripping loop stops in a state with no marker at the head. -/
theorem stripMarkers_cleanHead : ∀ l : List Char, cleanHead (stripMarkers l) := by
  intro l
  induction l using stripMarkers.induct with
  | case1 x h ih =>
    rw [stripMarkers, if_pos h]; exact ih
  | case2 x h1 h2 ih =>
    rw [stripMarkers, if_neg h1, if_pos h2]; exact ih
  | case3 x h1 h2 h3 ih =>
    rw [stripMarkers, if_neg h1, if_neg h2, if_pos h3]; exact ih
  | case4 x h1 h2 h3 h4 ih =>
    rw [stripMarkers, if_neg h1, if_neg h2, if_neg h3, if_pos h4]; exact ih
  | case5 x h1 h2 h3 h4 =>
    rw [stripMarkers, if_neg h1, if_neg h2, if_neg h3, if_neg h4]
    exact ⟨dropWhile_idem _ _, h1, h2, h3, h4⟩

/-- A list with no marker at the head is a fixed point of the stripping
loop. -/
theorem stripMarkers_fixed (t : List Char) (h : cleanHead t) :
    stripMarkers t = t := by
  obtain ⟨h0, h1, h2, h3, h4⟩ := h
  rw [stripMarkers, h0, if_neg h1, if_neg h2, if_neg h3, if_neg h4]

/-- Value of `collapseWs` on the empty list. -/
theorem collapseWs_nil : collapseWs [] = [] := by
  rw [collapseWs]

/-- A cons fixed by `dropWhile isWhitespace` has a non-whitespace head. -/
theorem head_not_ws_of_fixed (c : Char) (cs : List Char)
    (h : (c :: cs).dropWhile Char.isWhitespace = c :: cs) :
    c.isWhitespace = false := by
  by_contra hcc
  have hc : c.isWhitespace = true := by simpa using hcc
  rw [List.dropWhile_cons, if_pos hc] at h
  have hlen := congrArg List.length h
  have hle := (List.dropWhile_suffix (l := cs) Char.isWhitespace).sublist.length_le
  simp at hlen
  omega

/-- Collapsing a list with no leading whitespace yields a list with no
leading whitespace. -/
theorem collapseWs_head_fixed (l : List Char)
    (h : l.dropWhile Char.isWhitespace = l) :
    (collapseWs l).dropWhile Char.isWhitespace = collapseWs l := by
  cases l with
  | nil => rw [collapseWs_nil]; rfl
  | cons c cs =>
    have hc : c.isWhitespace = false := head_not_ws_of_fixed c cs h
    rw [collapseWs_cons_not_ws c cs hc, List.dropWhile_cons,
      if_neg (by simp [hc])]

/-- The collapsed list has fully collapsed whitespace. -/
theorem normalizedWs_collapseWs : ∀ l : List Char, normalizedWs (collapseWs l) := by
  intro l
  induction l using collapseWs.induct with
  | case1 => rw [collapseWs_nil]; trivial
  | case2 x xs hws hnil ih =>
    rw [collapseWs_cons_ws_nil x xs hws hnil]
    trivial
  | case3 x xs hws hne ih =>
    rcases hr : collapseWs (xs.dropWhile Char.isWhitespace) with _ | ⟨a, as⟩
    · exact absurd hr hne
    · rw [collapseWs_cons_ws_cons x xs a as hws hr]
      have hfix : (collapseWs (xs.dropWhile Char.isWhitespace)).dropWhile
            Char.isWhitespace
          = collapseWs (xs.dropWhile Char.isWhitespace) :=
        collapseWs_head_fixed _ (dropWhile_idem _ _)
      rw [hr] at hfix
      have ha : a.isWhitespace = false := head_not_ws_of_fixed a as hfix
      rw [hr] at ih
      exact ⟨Or.inr ⟨rfl, ha⟩, ih⟩
  | case4 x xs hnws ih =>
    have hxf : x.isWhitespace = false := by simpa using hnws
    rw [collapseWs_cons_not_ws x xs hxf]
    rcases hr : collapseWs xs with _ | ⟨a, as⟩
    · exact hxf
    · rw [hr] at ih
      exact ⟨Or.inl hxf, ih⟩

/-- A list with fully collapsed whitespace is a fixed point of
`collapseWs`. -/
theorem collapseWs_fixed : ∀ w : List Char, normalizedWs w → collapseWs w = w := by
  intro w
  induction w with
  | nil => intro _; exact collapseWs_nil
  | cons c cs ih =>
    intro h
    cases cs with
    | nil =>
      have hc : c.isWhitespace = false := h
      rw [collapseWs_cons_not_ws c [] hc, collapseWs_nil]
    | cons d ds =>
      obtain ⟨hcond, htail⟩ := h
      rcases hcond with hc | ⟨rfl, hd⟩
      · rw [collapseWs_cons_not_ws c (d :: ds) hc, ih htail]
      · have hdrop : (d :: ds).dropWhile Char.isWhitespace = d :: ds := by
          rw [List.dropWhile_cons, if_neg (by simp [hd])]
        have hcons : collapseWs ((d :: ds).dropWhile Char.isWhitespace)
            = d :: ds := by
          rw [hdrop]
          exact ih htail
        exact collapseWs_cons_ws_cons ' ' (d :: ds) d ds (by decide) hcons

/-- A whitespace-free token appearing at the head of the collapsed list
already appears at the head of the input. -/
theorem collapseWs_take_pat :
    ∀ pt : List Char, (∀ c ∈ pt, c.isWhitespace = false) →
    ∀ y : List Char, (collapseWs y).take pt.length = pt →
      y.take pt.length = pt := by
  intro pt
  induction pt with
  | nil => intro _ y _; rfl
  | cons p ps ih =>
    intro hpt y hy
    cases y with
    | nil =>
      rw [collapseWs_nil] at hy
      simp at hy
    | cons c cs =>
      simp only [List.length_cons] at hy ⊢
      by_cases hc : c.isWhitespace = true
      · exfalso
        rcases hr : collapseWs (cs.dropWhile Char.isWhitespace) with _ | ⟨a, as⟩
        · rw [collapseWs_cons_ws_nil c cs hc hr] at hy
          simp at hy
        · rw [collapseWs_cons_ws_cons c cs a as hc hr] at hy
          rw [List.take_succ_cons] at hy
          injection hy with h1 h2
          have hp := hpt p (List.mem_cons_self _ _)
          rw [← h1] at hp
          simp at hp
      · have hcf : c.isWhitespace = false := by simpa using hc
        rw [collapseWs_cons_not_ws c cs hcf] at hy
        rw [List.take_succ_cons] at hy ⊢
        injection hy with h1 h2
        rw [h1, ih (fun d hd => hpt d (List.mem_cons_of_mem _ hd)) cs h2]

/-- Collapsing whitespace preserves the stopping condition of the
stripping loop. -/
theorem collapseWs_cleanHead (y : List Char) (h : cleanHead y) :
    cleanHead (collapseWs y) := by
  obtain ⟨h0, h1, h2, h3, h4⟩ := h
  refine ⟨collapseWs_head_fixed y h0, ?_, ?_, ?_, ?_⟩
  · intro hc
    exact h1 (collapseWs_take_pat reMark (by decide) y hc)
  · intro hc
    exact h2 (collapseWs_take_pat fwdMark (by decide) y hc)
  · intro hc
    exact h3 (collapseWs_take_pat fwMark (by decide) y hc)
  · rintro ⟨hhead, htail⟩
    cases y with
    | nil =>
      rw [collapseWs_nil] at hhead
      exact Option.noConfusion hhead
    | cons c cs =>
      have hc : c.isWhitespace = false := head_not_ws_of_fixed c cs h0
      rw [collapseWs_cons_not_ws c cs hc] at hhead htail
      have hceq : c = '[' := by simpa using hhead
      apply h4
      refine ⟨by simp [hceq], ?_⟩
      have hmem : ']' ∈ collapseWs cs := by simpa using htail
      rcases collapseWs_chars cs _ hmem with he | hm
      · exact absurd he (by decide)
      · simpa using hm

/-- A lowercase-stable list stays lowercase-stable after marker
stripping. -/
theorem stripMarkers_lower_fixed (l : List Char)
    (h : l.map Char.toLower = l) :
    (stripMarkers l).map Char.toLower = stripMarkers l :=
  map_eq_self_of_forall _ _ (fun c hc =>
    forall_of_map_eq_self _ l h c ((stripMarkers_sublist l).subset hc))

/-- A lowercase-stable list stays lowercase-stable after whitespace
collapsing. -/
theorem collapseWs_lower_fixed (l : List Char)
    (h : l.map Char.toLower = l) :
    (collapseWs l).map Char.toLower = collapseWs l := by
  apply map_eq_self_of_forall
  intro c hc
  rcases collapseWs_chars l c hc with rfl | hm
  · decide
  · exact forall_of_map_eq_self _ l h c hm

/-- Value of `stripMarkers` on the empty list. -/
theorem stripMarkers_nil : stripMarkers [] = [] := by
  rw [stripMarkers]
  simp [reMark, fwdMark, fwMark]

/-- The core of the Subject Normalizer is idempotent. -/
theorem normCore_idem (l : List Char) :
    squish (stripMarkers
        ((squish (stripMarkers (l.map Char.toLower))).map Char.toLower))
      = squish (stripMarkers (l.map Char.toLower)) := by
  have hLfix : (l.map Char.toLower).map Char.toLower = l.map Char.toLower := by
    apply map_eq_self_of_forall
    intro c hc
    obtain ⟨d, hd, rfl⟩ := List.mem_map.mp hc
    exact charLower_idem d
  have hyclean : cleanHead (stripMarkers (l.map Char.toLower)) :=
    stripMarkers_cleanHead (l.map Char.toLower)
  have hylower : (stripMarkers (l.map Char.toLower)).map Char.toLower
      = stripMarkers (l.map Char.toLower) :=
    stripMarkers_lower_fixed _ hLfix
  have hw : squish (stripMarkers (l.map Char.toLower))
      = collapseWs (stripMarkers (l.map Char.toLower)) := by
    unfold squish
    rw [hyclean.1]
  have hwclean : cleanHead (collapseWs (stripMarkers (l.map Char.toLower))) :=
    collapseWs_cleanHead _ hyclean
  have hwlower : (collapseWs (stripMarkers (l.map Char.toLower))).map Char.toLower
      = collapseWs (stripMarkers (l.map Char.toLower)) :=
    collapseWs_lower_fixed _ hylower
  rw [hw, hwlower, stripMarkers_fixed _ hwclean]
  unfold squish
  rw [hwclean.1]
  exact collapseWs_fixed _ (normalizedWs_collapseWs _)

/-- C8: subject normalization is idempotent, and empty and absent
subjects both normalize to the empty string. -/
theorem normalize_subject_idem :
    (∀ s : Option String,
      _normalize_subject (some (_normalize_subject s)) = _normalize_subject s)
  ∧ _normalize_subject none = ("")
  ∧ _normalize_subject (some ("")) = ("") := by
  have hnil : _normalize_subject (some ("")) = ("") := by
    show String.mk (squish (stripMarkers (([] : List Char).map Char.toLower)))
      = ("")
    rw [List.map_nil, stripMarkers_nil]
    unfold squish
    rw [List.dropWhile_nil, collapseWs_nil]
  refine ⟨?_, rfl, hnil⟩
  intro s
  cases s with
  | none => exact hnil
  | some t =>
    show String.mk (squish (stripMarkers
        ((String.mk (squish (stripMarkers
          (t.toList.map Char.toLower)))).toList.map Char.toLower)))
      = String.mk (squish (stripMarkers (t.toList.map Char.toLower)))
    exact congrArg String.mk (normCore_idem t.toList)

end EmailThreadingEngine

end EmailModule
